import Mathlib

/-!
Verification of the `contestparser` streaming tree-pipeline core.

Shallow embedding of `src/contestparser.py`: the `Node` data model, the four
streaming operators (`_expand_op`, `_map_op`, `_reduce_op`, `_aggregate_op`),
the `TreeParser` terminal consumer `get`, and the `from_file` constructor.

Modelling conventions:

* Python object identity: every created `Node` carries a unique `id : Nat`,
  assigned from a fresh-id counter that each operator threads through.  The
  Python `is` comparison on `parent` fields is modelled by `refIs`, which
  compares ids; under the fresh-id discipline two parent references have the
  same id exactly when they are the same Python object.
* A parent reference (`Ref`) keeps only what downstream code ever reads from
  a parent: its identity and its own parent (`cur_parent.parent`, the
  grandparent).  Parent values are never dereferenced by the source.
* Python values flowing through `aggregate` may be `None`; they are modelled
  as `Option β`, with `none` playing the role of Python `None`.  The source's
  `if cur_aggregate is None` test is exactly the `Option` case split.
* Python exceptions are modelled with `Except PyError`; an unhandled
  attribute access on `None` (e.g. `None.parent`, `None.append`) is
  `PyError.attributeError`.  Generators are drained eagerly into lists; all
  theorems below concern fully-drained results, for which eager and lazy
  evaluation agree.  Evaluation-order (laziness) claims are settled against a
  separate explicit model of `from_file` and its file handle.
-/

/-- The error kinds observable from the source.  `typeError` models a
Python TypeError, raised e.g. when a user callable such as `len` or
`'_'.join` is applied to `None`.  `emptySequence` and
`invalidDepth` are the precondition-violation kinds the specification names;
they exist here so that statements about them can be written — the source
never raises them.  `unmodelledNonLeaf` marks branches of `Node` methods that
iterate the children of a non-leaf node; those branches cannot be typed
faithfully here and are unreachable because `is_leaf` is `True` for every
node the pipeline creates (proved below). -/
inductive PyError : Type where
  | attributeError
  | typeError
  | leafIteration
  | singleNode
  | notCollapsed
  | indexError
  | emptySequence
  | invalidDepth
  | unmodelledNonLeaf
  deriving DecidableEq, Repr

/-- The identity token of a parent node: its object id together with its own
parent reference (the only two things the source ever reads from a stored
`parent`: identity for grouping, and `cur_parent.parent` for the
grandparent).  `root i` is a node whose own parent is `None`; `child i p` is
a node whose own parent is `p`. -/
inductive Ref : Type where
  | root (id : Nat)
  | child (id : Nat) (parent : Ref)
  deriving DecidableEq, Repr

def Ref.id : Ref → Nat
  | .root i => i
  | .child i _ => i

def Ref.parent : Ref → Option Ref
  | .root _ => none
  | .child _ p => some p

/-- Python's `Node.__init__`: `is_leaf = True; value = ...; parent = ...`,
plus the modelling id. -/
structure Node (V : Type) : Type where
  id : Nat
  value : V
  parent : Option Ref
  isLeaf : Bool
  deriving DecidableEq, Repr

/-- The reference other nodes store when this node becomes their parent. -/
def Node.ref {V : Type} (n : Node V) : Ref :=
  match n.parent with
  | none => .root n.id
  | some p => .child n.id p

/-- Python `x is y` on two `parent` fields (each a `Node` or `None`).  Under
the fresh-id discipline, two parent references are the same object iff their
ids agree. -/
def refIs : Option Ref → Option Ref → Bool
  | none, none => true
  | some r, some s => r.id == s.id
  | _, _ => false

/-- Model of `TreeParser.__init__`: one fresh leaf `Node(inp)` per input, parent
`None`.  Ids are assigned in sequence starting from `fresh`. -/
def initNodesGo {V : Type} (fresh : Nat) : List V → List (Node V)
  | [] => []
  | v :: vs => ⟨fresh, v, none, true⟩ :: initNodesGo (fresh + 1) vs

/-- Model of `TreeParser(*inputs)`: the initial node sequence and the next fresh id. -/
def initNodes {V : Type} (inputs : List V) : List (Node V) × Nat :=
  (initNodesGo 0 inputs, inputs.length)

/-- The children one upstream leaf contributes in `_expand_op`:
`Node(l, leaf)` for each `l` in `func(leaf.value)`. -/
def mkChildren {W : Type} (pref : Option Ref) : Nat → List W → List (Node W) × Nat
  | fresh, [] => ([], fresh)
  | fresh, w :: ws =>
    let rest := mkChildren pref (fresh + 1) ws
    (⟨fresh, w, pref, true⟩ :: rest.1, rest.2)

/-- Model of `_expand_op(leaves, func)`: for each leaf, emit one node per element of
`func(leaf.value)`, each with `parent = leaf` (the leaf's identity). -/
def expandOp {V W : Type} (func : V → List W) : Nat → List (Node V) → List (Node W) × Nat
  | fresh, [] => ([], fresh)
  | fresh, leaf :: rest =>
    let cs := mkChildren (some leaf.ref) fresh (func leaf.value)
    let out := expandOp func cs.2 rest
    (cs.1 ++ out.1, out.2)

/-- Model of `_map_op(leaves, func)`: `Node(func(leaf.value), leaf.parent)` for each
leaf, 1:1 and order-preserving. -/
def mapOp {V W : Type} (func : V → W) : Nat → List (Node V) → List (Node W) × Nat
  | fresh, [] => ([], fresh)
  | fresh, leaf :: rest =>
    let out := mapOp func (fresh + 1) rest
    (⟨fresh, func leaf.value, leaf.parent, true⟩ :: out.1, out.2)

/-- The loop of `_reduce_op`.  The state models the two locals: `none` is the
initial `cur_parent = collected = None`; `some (p, cs)` means
`cur_parent = p` and `collected = cs`.  (In the source these are assigned
together whenever a group starts, so `collected` is a real list exactly when
a group has started; `cur_parent` may still be `None` mid-stream if a leaf
with a `None` parent starts a group.)  Error cases are the source's unhandled
exceptions.  On a leaf with `parent = None` before any group has started,
`collected.append` is attribute access on `None`.  The final
`yield Node(func(collected), cur_parent.parent)` evaluates its arguments
left to right, as Python does: when the upstream sequence yielded no nodes,
`collected` is still `None` and `func(None)` runs first — `funcNone` gives
the user callable's behaviour on Python `None`, `.error e` when it raises
there (as `len` or `'_'.join` do, with a TypeError) and `.ok w` when it
tolerates `None` and returns — and only if it returns does
`cur_parent.parent` raise the attribute error; when a group was started but
`cur_parent` ended as `None` (flat input), `func(collected)` is applied to
the collected list and returns, and `cur_parent.parent` raises. -/
def reduceGo {V W : Type} (func : List V → W) (funcNone : Except PyError W) (fresh : Nat) :
    List (Node V) → Option (Option Ref × List V) → Except PyError (List (Node W) × Nat)
  | [], none =>
    match funcNone with
    | .error e => .error e
    | .ok _ => .error .attributeError
  | [], some (none, _) => .error .attributeError
  | [], some (some r, cs) => .ok ([⟨fresh, func cs, r.parent, true⟩], fresh + 1)
  | leaf :: rest, none =>
    match leaf.parent with
    | none => .error .attributeError
    | some q => reduceGo func funcNone fresh rest (some (some q, [leaf.value]))
  | leaf :: rest, some (p, cs) =>
    if refIs leaf.parent p then
      reduceGo func funcNone fresh rest (some (p, cs ++ [leaf.value]))
    else
      match p with
      | none => reduceGo func funcNone fresh rest (some (leaf.parent, [leaf.value]))
      | some r =>
        (reduceGo func funcNone (fresh + 1) rest (some (leaf.parent, [leaf.value]))).map
          (fun out => (⟨fresh, func cs, r.parent, true⟩ :: out.1, out.2))

/-- Model of `_reduce_op(leaves, func)`: `funcNone` is the behaviour of the
user callable `func` on Python `None`, consulted only in the final yield of
an empty upstream sequence (see `reduceGo`). -/
def reduceOp {V W : Type} (func : List V → W) (funcNone : Except PyError W) (fresh : Nat)
    (leaves : List (Node V)) : Except PyError (List (Node W) × Nat) :=
  reduceGo func funcNone fresh leaves none

/-- One iteration of the accumulator update in `_aggregate_op`:
`if cur_aggregate is None: cur_aggregate = leaf.value
 else: cur_aggregate = func(cur_aggregate, leaf.value)`. -/
def pyFoldStep {β : Type} (func : β → Option β → Option β) (agg : Option β) (v : Option β) :
    Option β :=
  match agg with
  | none => v
  | some a => func a v

/-- The effective per-group seed source of `_aggregate_op`:
`if init_factory is None: init_factory = lambda: init`.  A possibly stateful
factory is modelled as a function of its call index, so "invoked once per
group" is observable. -/
def effInit {β : Type} (init : Option β) (factory : Option (Nat → Option β)) :
    Nat → Option β :=
  match factory with
  | some f => f
  | none => fun _ => init

/-- The loop of `_aggregate_op`.  State: `curP` is `cur_parent`, `agg` is
`cur_aggregate`; `k` counts `init_factory()` calls so far.  A group start
(`leaf.parent is not cur_parent`) first yields the previous group's node when
`cur_parent` is not `None`, then reseeds `cur_aggregate = init_factory()` and
folds the leaf in; the final `yield Node(cur_aggregate, cur_parent.parent)`
fails with an attribute error when `cur_parent` is still `None` (empty or
flat input). -/
def aggregateGo {β : Type} (func : β → Option β → Option β) (seed : Nat → Option β)
    (fresh k : Nat) :
    List (Node (Option β)) → Option Ref → Option β →
      Except PyError (List (Node (Option β)) × Nat)
  | [], none, _ => .error .attributeError
  | [], some r, agg => .ok ([⟨fresh, agg, r.parent, true⟩], fresh + 1)
  | leaf :: rest, curP, agg =>
    if refIs leaf.parent curP then
      aggregateGo func seed fresh k rest curP (pyFoldStep func agg leaf.value)
    else
      match curP with
      | none =>
        aggregateGo func seed fresh (k + 1) rest leaf.parent
          (pyFoldStep func (seed k) leaf.value)
      | some r =>
        (aggregateGo func seed (fresh + 1) (k + 1) rest leaf.parent
            (pyFoldStep func (seed k) leaf.value)).map
          (fun out => (⟨fresh, agg, r.parent, true⟩ :: out.1, out.2))

/-- Model of `_aggregate_op(leaves, func, init, init_factory)`. -/
def aggregateOp {β : Type} (func : β → Option β → Option β) (init : Option β)
    (factory : Option (Nat → Option β)) (fresh : Nat) (leaves : List (Node (Option β))) :
    Except PyError (List (Node (Option β)) × Nat) :=
  aggregateGo func (effInit init factory) fresh 0 leaves none none

/-- Model of `TreeParser.get`: drain the sequence (propagating any upstream failure),
raise when more than one node remains, index `result[0]` (an index error on
an empty drain), and return its value. -/
def getOp {V : Type} : Except PyError (List (Node V) × Nat) → Except PyError V
  | .error e => .error e
  | .ok (ns, _) =>
    if 1 < ns.length then .error .notCollapsed
    else
      match ns with
      | [] => .error .indexError
      | n :: _ => .ok n.value

/-- Model of `TreeParser.leaves`: the values of the currently in-flight nodes. -/
def leavesOp {V : Type} : Except PyError (List (Node V) × Nat) → Except PyError (List V)
  | .error e => .error e
  | .ok (ns, _) => .ok (ns.map Node.value)

/-- Python single-character `str.split(sep)` on the character list of the
string: splits on every occurrence of `sep`, keeping empty pieces — in
particular a trailing empty piece when the string ends with the separator,
and the single piece `[[]]` for the empty string.  (The `[] => [[c]]` inner
arm is unreachable: the recursive result is never empty.) -/
def splitChar (sep : Char) : List Char → List (List Char)
  | [] => [[]]
  | c :: cs =>
    let r := splitChar sep cs
    if c = sep then [] :: r
    else
      match r with
      | [] => [[c]]
      | g :: gs => (c :: g) :: gs

/-- The `lambda value: value.split(separator)` of `TreeParser.split`, for a
single-character separator.  A `None` value would raise an attribute error
in Python; it never occurs in the runs considered below and is modelled as
producing no children. -/
def pySplitChar (sep : Char) : Option String → List (Option String)
  | some s => (splitChar sep s.toList).map (fun cs => some (String.mk cs))
  | none => []

/-- The `lambda a, b: a + sep + b` aggregation functions of the demo
scenario.  `_aggregate_op` only calls `func` with a non-`None` first
argument; a `None` second argument would raise in Python, never occurs in
the runs below, and is modelled as `none`. -/
def pyConcat (sep : String) (a : String) (b : Option String) : Option String :=
  b.map (fun bv => a ++ sep ++ bv)

/-- The concrete scenario
`TreeParser(input).split('\n').split(' ')
  .aggregate(lambda a,b: a+'_'+b).aggregate(lambda a,b: a+' -> '+b).get()`,
with the operators chained exactly as `TreeParser` chains them (each step
consuming the previous step's sequence and fresh-id counter). -/
def scenarioPipeline (input : String) : Except PyError (Option String) :=
  let s0 := initNodes [some input]
  let s1 := expandOp (pySplitChar '\n') s0.2 s0.1
  let s2 := expandOp (pySplitChar ' ') s1.2 s1.1
  match aggregateOp (pyConcat "_") none none s2.2 s2.1 with
  | .error e => .error e
  | .ok s3 => getOp (aggregateOp (pyConcat " -> ") none none s3.2 s3.1)

/-- One `file.readline()` call, the handle modelled as the list of lines not
yet read: returns the next line, or `""` at end of file, and the rest of the
handle. -/
def readline : List String → String × List String
  | [] => ("", [])
  | l :: ls => (l, ls)

/-- The inner `line_generator` of `TreeParser.from_file` driven to
exhaustion: `while line := file.readline(): yield line` reads until a falsy
(empty) line.  Returns the yielded lines and the unread remainder of the
handle. -/
def lineGenRun : List String → List String × List String
  | [] => ([], [])
  | l :: ls =>
    if l = "" then ([], ls)
    else
      let r := lineGenRun ls
      (l :: r.1, r.2)

/-- Model of `TreeParser.from_file(file)`.  The source runs `cls(*line_generator())`:
the starred argument unpacking evaluates the generator to an argument tuple
before `__init__` runs, so the whole generator — hence the whole file — is
drained during construction.  Returns the constructed parser state together
with the unread remainder of the file handle at the moment `from_file`
returns. -/
def fromFileModel (file : List String) : (List (Node (Option String)) × Nat) × List String :=
  (initNodes ((lineGenRun file).1.map some), (lineGenRun file).2)

/-- A run-structured upstream sequence: for each group, a common parent
reference and the ordered values of the group, flattened to the node
sequence that delivers each group contiguously.  The nodes' own ids are
irrelevant to grouping (only `parent` fields are ever compared) and are set
to `0`. -/
def flattenGroups {V : Type} : List (Ref × List V) → List (Node V)
  | [] => []
  | (r, vs) :: gs => vs.map (fun v => ⟨0, v, some r, true⟩) ++ flattenGroups gs

/-- The nodes `_reduce_op` emits for the groups `gs`, starting at fresh id
`fresh`: one node per group, value `func` of the group's ordered values,
parent the group's grandparent. -/
def reduceRunsOut {V W : Type} (func : List V → W) : Nat → List (Ref × List V) → List (Node W)
  | _, [] => []
  | fresh, (r, vs) :: gs => ⟨fresh, func vs, r.parent, true⟩ :: reduceRunsOut func (fresh + 1) gs

/-- The nodes `_aggregate_op` emits for the groups `gs`: one node per group,
value the left fold of `pyFoldStep func` over the group's values seeded with
the group's seed (`seed k` for the `k`-th group-start), parent the group's
grandparent. -/
def aggRunsOut {β : Type} (func : β → Option β → Option β) (seed : Nat → Option β) :
    Nat → Nat → List (Ref × List (Option β)) → List (Node (Option β))
  | _, _, [] => []
  | fresh, k, (r, vs) :: gs =>
    ⟨fresh, vs.foldl (pyFoldStep func) (seed k), r.parent, true⟩ ::
      aggRunsOut func seed (fresh + 1) (k + 1) gs

/-- Adjacent groups have non-identical parents: the runs are maximal. -/
def adjDiff {V : Type} : List (Ref × List V) → Prop
  | [] => True
  | [_] => True
  | (r, _) :: (s, ws) :: gs => r.id ≠ s.id ∧ adjDiff ((s, ws) :: gs)

/-- The first group of `gs` (if any) has a parent not identical to `r`. -/
def headDiff {V : Type} (r : Ref) : List (Ref × List V) → Prop
  | [] => True
  | (s, _) :: _ => r.id ≠ s.id

theorem refIs_self (r : Ref) : refIs (some r) (some r) = true := by
  simp [refIs]

theorem refIs_of_ne {s r : Ref} (h : r.id ≠ s.id) : refIs (some s) (some r) = false := by
  simp [refIs]
  omega

theorem adjDiff_cons {V : Type} {x : Ref × List V} {gs : List (Ref × List V)}
    (h : adjDiff (x :: gs)) : headDiff x.1 gs ∧ adjDiff gs := by
  obtain ⟨r, vs⟩ := x
  cases gs with
  | nil => exact ⟨trivial, trivial⟩
  | cons y ys =>
    obtain ⟨s, ws⟩ := y
    exact ⟨h.1, h.2⟩

/-- Within one run: consuming the run's remaining values appends them, in
order, to `collected`. -/
theorem reduceGo_run {V W : Type} (func : List V → W) (funcNone : Except PyError W)
    (r : Ref) :
    ∀ (vs cs : List V) (rest : List (Node V)) (fresh : Nat),
      reduceGo func funcNone fresh (vs.map (fun v => ⟨0, v, some r, true⟩) ++ rest)
          (some (some r, cs)) =
        reduceGo func funcNone fresh rest (some (some r, cs ++ vs)) := by
  intro vs
  induction vs with
  | nil => intro cs rest fresh; simp
  | cons v vs ih =>
    intro cs rest fresh
    simp only [List.map_cons, List.cons_append, reduceGo, refIs_self, if_true,
      List.append_eq]
    rw [ih (cs ++ [v]) rest fresh]
    simp

/-- Across groups: from a started group with parent `r` and collected `cs`,
processing the remaining (maximal, non-empty) groups emits one node per
group — `func` of the collected values with the grandparent as parent — and
flushes the final group after the sequence ends. -/
theorem reduceGo_groups {V W : Type} (func : List V → W)
    (funcNone : Except PyError W) :
    ∀ (gs : List (Ref × List V)) (r : Ref) (cs : List V) (fresh : Nat),
      (∀ g ∈ gs, g.2 ≠ []) → headDiff r gs → adjDiff gs →
      reduceGo func funcNone fresh (flattenGroups gs) (some (some r, cs)) =
        .ok (⟨fresh, func cs, r.parent, true⟩ :: reduceRunsOut func (fresh + 1) gs,
             fresh + 1 + gs.length) := by
  intro gs
  induction gs with
  | nil =>
    intro r cs fresh _ _ _
    simp [flattenGroups, reduceGo, reduceRunsOut]
  | cons g gs ih =>
    intro r cs fresh hne hhd hadj
    obtain ⟨s, vs⟩ := g
    obtain ⟨v, vs', rfl⟩ : ∃ v vs', vs = v :: vs' := by
      cases vs with
      | nil => exact absurd rfl (hne (s, []) (by simp))
      | cons v vs' => exact ⟨v, vs', rfl⟩
    have hd : headDiff s gs ∧ adjDiff gs := adjDiff_cons hadj
    have hr : refIs (some s) (some r) = false := refIs_of_ne hhd
    simp only [flattenGroups, List.map_cons, List.cons_append, reduceGo, hr,
      List.append_eq]
    rw [if_neg (by simp),
      reduceGo_run func funcNone s vs' [v] (flattenGroups gs) (fresh + 1)]
    simp only [List.singleton_append]
    rw [ih s (v :: vs') (fresh + 1) (fun g hg => hne g (by simp [hg])) hd.1 hd.2]
    simp only [Except.map, reduceRunsOut, List.length_cons, Except.ok.injEq,
      Prod.mk.injEq]
    exact ⟨trivial, by omega⟩

/-- Full-run characterization of `_reduce_op` on a run-structured sequence
of non-empty maximal groups: one emitted node per group, value `func` of the
group's ordered values, parent the grandparent, ids sequential from
`fresh`. -/
theorem reduceOp_runs {V W : Type} (func : List V → W)
    (funcNone : Except PyError W) (gs : List (Ref × List V)) (fresh : Nat)
    (hne : ∀ g ∈ gs, g.2 ≠ []) (hgs : gs ≠ []) (hadj : adjDiff gs) :
    reduceOp func funcNone fresh (flattenGroups gs) =
      .ok (reduceRunsOut func fresh gs, fresh + gs.length) := by
  obtain ⟨⟨r, vs⟩, gs', rfl⟩ : ∃ g gs', gs = g :: gs' := by
    cases gs with
    | nil => exact absurd rfl hgs
    | cons g gs' => exact ⟨g, gs', rfl⟩
  obtain ⟨v, vs', rfl⟩ : ∃ v vs', vs = v :: vs' := by
    cases vs with
    | nil => exact absurd rfl (hne (r, []) (by simp))
    | cons v vs' => exact ⟨v, vs', rfl⟩
  have hd := adjDiff_cons hadj
  simp only [reduceOp, flattenGroups, List.map_cons, List.cons_append, reduceGo,
    List.append_eq]
  rw [reduceGo_run func funcNone r vs' [v] (flattenGroups gs') fresh]
  simp only [List.singleton_append]
  rw [reduceGo_groups func funcNone gs' r (v :: vs') fresh
    (fun g hg => hne g (by simp [hg])) hd.1 hd.2]
  simp only [reduceRunsOut, List.length_cons, Except.ok.injEq, Prod.mk.injEq]
  exact ⟨trivial, by omega⟩

/-- C4: `_reduce_op` groups a contiguity-respecting upstream sequence (with
non-null parents) by maximal consecutive runs of identical parent identity
and, for every run — including the final run, flushed explicitly after the
upstream sequence is exhausted — emits exactly one node whose value is
`func` applied to the run's ordered values and whose parent is the
grandparent (the run's common parent's own parent). -/
theorem reduce_groups_consecutive_runs {V W : Type} (func : List V → W)
    (funcNone : Except PyError W) (gs : List (Ref × List V)) (fresh : Nat)
    (hne : ∀ g ∈ gs, g.2 ≠ []) (hgs : gs ≠ []) (hadj : adjDiff gs) :
    reduceOp func funcNone fresh (flattenGroups gs) =
      .ok (reduceRunsOut func fresh gs, fresh + gs.length) :=
  reduceOp_runs func funcNone gs fresh hne hgs hadj

/-- Witness for `reduce_groups_consecutive_runs`: two groups, values
`[1, 2]` under one parent and `[3]` under another, reduced with
`List.length`. -/
theorem reduce_groups_consecutive_runs_witness :
    reduceOp (fun l : List Nat => l.length) (.error .typeError) 50
        (flattenGroups [(.root 0, [1, 2]), (.root 1, [3])]) =
      .ok ([⟨50, 2, none, true⟩, ⟨51, 1, none, true⟩], 52) :=
  (reduce_groups_consecutive_runs (fun l : List Nat => l.length) (.error .typeError)
      [(.root 0, [1, 2]), (.root 1, [3])] 50
      (by decide) (by decide) (by exact ⟨by decide, trivial⟩)).trans (by rfl)

/-- Within one run of `_aggregate_op`: consuming the run's remaining values
left-folds them into the accumulator with `pyFoldStep`. -/
theorem aggregateGo_run {β : Type} (func : β → Option β → Option β)
    (seed : Nat → Option β) (r : Ref) :
    ∀ (vs : List (Option β)) (rest : List (Node (Option β))) (agg : Option β)
      (fresh k : Nat),
      aggregateGo func seed fresh k (vs.map (fun v => ⟨0, v, some r, true⟩) ++ rest)
          (some r) agg =
        aggregateGo func seed fresh k rest (some r) (vs.foldl (pyFoldStep func) agg) := by
  intro vs
  induction vs with
  | nil => intro rest agg fresh k; simp
  | cons v vs ih =>
    intro rest agg fresh k
    simp only [List.map_cons, List.cons_append, aggregateGo, refIs_self, if_true,
      List.append_eq, List.foldl_cons]
    exact ih rest (pyFoldStep func agg v) fresh k

/-- Across groups of `_aggregate_op`: from a started group with parent `r`
and accumulator `agg`, after `k` factory calls, processing the remaining
(maximal, non-empty) groups emits one node per group — the group's fold
seeded by the next factory call, with the grandparent as parent — and
flushes the final group after the sequence ends. -/
theorem aggregateGo_groups {β : Type} (func : β → Option β → Option β)
    (seed : Nat → Option β) :
    ∀ (gs : List (Ref × List (Option β))) (r : Ref) (agg : Option β) (fresh k : Nat),
      (∀ g ∈ gs, g.2 ≠ []) → headDiff r gs → adjDiff gs →
      aggregateGo func seed fresh k (flattenGroups gs) (some r) agg =
        .ok (⟨fresh, agg, r.parent, true⟩ :: aggRunsOut func seed (fresh + 1) k gs,
             fresh + 1 + gs.length) := by
  intro gs
  induction gs with
  | nil =>
    intro r agg fresh k _ _ _
    simp [flattenGroups, aggregateGo, aggRunsOut]
  | cons g gs ih =>
    intro r agg fresh k hne hhd hadj
    obtain ⟨s, vs⟩ := g
    obtain ⟨v, vs', rfl⟩ : ∃ v vs', vs = v :: vs' := by
      cases vs with
      | nil => exact absurd rfl (hne (s, []) (by simp))
      | cons v vs' => exact ⟨v, vs', rfl⟩
    have hd : headDiff s gs ∧ adjDiff gs := adjDiff_cons hadj
    have hr : refIs (some s) (some r) = false := refIs_of_ne hhd
    simp only [flattenGroups, List.map_cons, List.cons_append, aggregateGo, hr,
      List.append_eq]
    rw [if_neg (by simp), aggregateGo_run func seed s vs' (flattenGroups gs)
      (pyFoldStep func (seed k) v) (fresh + 1) (k + 1)]
    rw [ih s (vs'.foldl (pyFoldStep func) (pyFoldStep func (seed k) v)) (fresh + 1)
      (k + 1) (fun g hg => hne g (by simp [hg])) hd.1 hd.2]
    simp only [Except.map, aggRunsOut, List.length_cons, List.foldl_cons,
      Except.ok.injEq, Prod.mk.injEq]
    exact ⟨trivial, by omega⟩

/-- C1 counterexample: with both `init = 10` and an `init_factory` returning
`20` provided, aggregating the single group `[5]` with addition yields `25`:
the factory seeds the accumulator.  The claim's priority order (`init` wins)
would give `func(10, 5) = 15`. -/
theorem aggregate_init_priority_counterexample :
    aggregateOp (fun a b => b.map (a + ·)) (some 10) (some (fun _ => some 20)) 5
        (flattenGroups [(.root 0, [some 5])]) =
      .ok ([⟨5, some 25, none, true⟩], 6) ∧
    (some 25 : Option Nat) ≠ some 15 :=
  ⟨rfl, by decide⟩

/-- Full-run characterization of `_aggregate_op` on a run-structured
sequence of non-empty maximal groups: one emitted node per group, value the
`pyFoldStep` left fold of the group's values over the group's seed
(`effInit init factory k` for the `k`-th group), parent the grandparent. -/
theorem aggregateOp_runs {β : Type} (func : β → Option β → Option β)
    (init : Option β) (factory : Option (Nat → Option β))
    (gs : List (Ref × List (Option β))) (fresh : Nat)
    (hne : ∀ g ∈ gs, g.2 ≠ []) (hgs : gs ≠ []) (hadj : adjDiff gs) :
    aggregateOp func init factory fresh (flattenGroups gs) =
      .ok (aggRunsOut func (effInit init factory) fresh 0 gs, fresh + gs.length) := by
  obtain ⟨⟨r, vs⟩, gs', rfl⟩ : ∃ g gs', gs = g :: gs' := by
    cases gs with
    | nil => exact absurd rfl hgs
    | cons g gs' => exact ⟨g, gs', rfl⟩
  obtain ⟨v, vs', rfl⟩ : ∃ v vs', vs = v :: vs' := by
    cases vs with
    | nil => exact absurd rfl (hne (r, []) (by simp))
    | cons v vs' => exact ⟨v, vs', rfl⟩
  have hd := adjDiff_cons hadj
  simp only [aggregateOp, flattenGroups, List.map_cons, List.cons_append,
    aggregateGo, List.append_eq]
  rw [if_neg (by simp [refIs])]
  rw [aggregateGo_run func (effInit init factory) r vs' (flattenGroups gs')
    (pyFoldStep func (effInit init factory 0) v) fresh 1]
  rw [aggregateGo_groups func (effInit init factory) gs' r
    (vs'.foldl (pyFoldStep func) (pyFoldStep func (effInit init factory 0) v)) fresh 1
    (fun g hg => hne g (by simp [hg])) hd.1 hd.2]
  simp only [aggRunsOut, List.length_cons, List.foldl_cons, Except.ok.injEq,
    Prod.mk.injEq]
  exact ⟨trivial, by omega⟩

/-- C1 (amended): the initial accumulator of every group is chosen with
`init_factory` taking priority — if `init_factory` is provided it is invoked
once per group (its `k`-th call seeds the `k`-th group), even when `init` is
also provided; else the seed is `init` (Python `None` when absent); and a
`None` seed makes the group's first value the accumulator, folding from the
second value onward (`pyFoldStep`). -/
theorem aggregate_seed_policy {β : Type} (func : β → Option β → Option β)
    (init : Option β) (factory : Option (Nat → Option β))
    (gs : List (Ref × List (Option β))) (fresh : Nat)
    (hne : ∀ g ∈ gs, g.2 ≠ []) (hgs : gs ≠ []) (hadj : adjDiff gs) :
    aggregateOp func init factory fresh (flattenGroups gs) =
      .ok (aggRunsOut func (effInit init factory) fresh 0 gs, fresh + gs.length) ∧
    (∀ (f : Nat → Option β) (k : Nat), effInit init (some f) k = f k) ∧
    (∀ k : Nat, effInit (β := β) init none k = init) ∧
    (∀ (v : Option β), pyFoldStep func none v = v) :=
  ⟨aggregateOp_runs func init factory gs fresh hne hgs hadj,
   fun _ _ => rfl, fun _ => rfl, fun _ => rfl⟩

/-- Witness for `aggregate_seed_policy`: a call-counting factory seeds the
two groups with `20` and `21` respectively, even though `init = 10` is also
provided. -/
theorem aggregate_seed_policy_witness :
    aggregateOp (fun a b => b.map (a + ·)) (some 10) (some (fun k => some (20 + k))) 7
        (flattenGroups [(.root 0, [some 1]), (.root 1, [some 2])]) =
      .ok ([⟨7, some 21, none, true⟩, ⟨8, some 23, none, true⟩], 9) :=
  ((aggregate_seed_policy (fun a b => b.map (a + ·)) (some 10)
      (some (fun k => some (20 + k))) [(.root 0, [some 1]), (.root 1, [some 2])] 7
      (by decide) (by decide) (by exact ⟨by decide, trivial⟩)).1).trans (by rfl)

/-- The `_aggregate_op` loop never leaves the initial `cur_parent = None`
state while every upstream parent is `None`, so the final
`cur_parent.parent` dereference fails. -/
theorem aggregateGo_flat {β : Type} (func : β → Option β → Option β)
    (seed : Nat → Option β) :
    ∀ (ns : List (Node (Option β))) (agg : Option β) (fresh k : Nat),
      (∀ n ∈ ns, n.parent = none) →
      aggregateGo func seed fresh k ns none agg = .error .attributeError := by
  intro ns
  induction ns with
  | nil => intro agg fresh k _; simp [aggregateGo]
  | cons n ns ih =>
    intro agg fresh k h
    have hp : n.parent = none := h n (by simp)
    simp only [aggregateGo, hp, refIs, if_true]
    exact ih (pyFoldStep func agg n.value) fresh k (fun m hm => h m (by simp [hm]))

/-- C5 counterexample: draining `reduce` over a flat sequence (one node,
parent `None`) fails with the unhandled attribute error from
`collected.append` on `None` (reached before `func` is ever called, so
`func`'s behaviour on `None` is irrelevant here) — which is not an
EmptySequence or InvalidDepth precondition kind (the source defines no such
kinds). -/
theorem precondition_error_kind_counterexample :
    reduceOp (fun l : List Nat => l.length) (.error .typeError) 0 [⟨0, 1, none, true⟩] =
      .error .attributeError ∧
    PyError.attributeError ≠ PyError.emptySequence ∧
    PyError.attributeError ≠ PyError.invalidDepth :=
  ⟨rfl, by decide, by decide⟩

/-- C5 (amended): invoking `reduce` or `aggregate` on a sequence that yields
zero nodes, or on a depth-zero sequence (every parent `None`), fails when
the sequence is drained rather than silently succeeding — but never with a
dedicated EmptySequence/InvalidDepth precondition kind, which the source
does not define.  `aggregate` on empty or flat input and `reduce` on flat
input raise the unhandled attribute error from `None.append` /
`None.parent`; `reduce` on empty input first evaluates `func(None)` in its
final yield, propagating `func`'s own exception when it raises there (as
`len` or `'_'.join` do, with a TypeError) and raising the attribute error
from `cur_parent.parent` when `func` tolerates `None` and returns. -/
theorem reduce_aggregate_fail_on_empty_or_flat :
    (∀ (V W : Type) (func : List V → W) (e : PyError) (fresh : Nat),
        reduceOp func (.error e) fresh [] = .error e) ∧
    (∀ (V W : Type) (func : List V → W) (w : W) (fresh : Nat),
        reduceOp func (.ok w) fresh [] = .error .attributeError) ∧
    (∀ (V W : Type) (func : List V → W) (funcNone : Except PyError W) (fresh : Nat)
        (ns : List (Node V)),
        ns ≠ [] → (∀ n ∈ ns, n.parent = none) →
        reduceOp func funcNone fresh ns = .error .attributeError) ∧
    (∀ (β : Type) (func : β → Option β → Option β) (init : Option β)
        (factory : Option (Nat → Option β)) (fresh : Nat),
        aggregateOp func init factory fresh [] = .error .attributeError) ∧
    (∀ (β : Type) (func : β → Option β → Option β) (init : Option β)
        (factory : Option (Nat → Option β)) (fresh : Nat)
        (ns : List (Node (Option β))),
        (∀ n ∈ ns, n.parent = none) →
        aggregateOp func init factory fresh ns = .error .attributeError) := by
  refine ⟨fun V W func e fresh => rfl, fun V W func w fresh => rfl, ?_,
    fun β func init factory fresh => rfl, ?_⟩
  · intro V W func funcNone fresh ns hne hflat
    obtain ⟨n, rest, rfl⟩ : ∃ n rest, ns = n :: rest := by
      cases ns with
      | nil => exact absurd rfl hne
      | cons n rest => exact ⟨n, rest, rfl⟩
    have hp : n.parent = none := hflat n (by simp)
    simp [reduceOp, reduceGo, hp]
  · intro β func init factory fresh ns hflat
    exact aggregateGo_flat func (effInit init factory) ns none fresh 0 hflat

/-- Witness for `reduce_aggregate_fail_on_empty_or_flat`: each of the five
failure modes at a concrete input — empty `reduce` with `len` (which raises
a TypeError on `None`), empty `reduce` with the `None`-tolerant
`lambda x: 0`, flat `reduce`, empty `aggregate`, and flat `aggregate`. -/
theorem reduce_aggregate_fail_witness :
    reduceOp (fun l : List Nat => l.length) (.error .typeError) 0 [] =
      .error .typeError ∧
    reduceOp (fun _ : List Nat => 0) (.ok 0) 0 [] = .error .attributeError ∧
    reduceOp (fun l : List Nat => l.length) (.error .typeError) 0
      [⟨0, 1, none, true⟩] = .error .attributeError ∧
    aggregateOp (fun a b => b.map (a + ·)) none none 0 ([] : List (Node (Option Nat))) =
      .error .attributeError ∧
    aggregateOp (fun a b => b.map (a + ·)) none none 0
        [⟨0, some 1, none, true⟩, ⟨1, some 2, none, true⟩] = .error .attributeError :=
  ⟨reduce_aggregate_fail_on_empty_or_flat.1 Nat Nat (fun l => l.length) .typeError 0,
   reduce_aggregate_fail_on_empty_or_flat.2.1 Nat Nat (fun _ => 0) 0 0,
   reduce_aggregate_fail_on_empty_or_flat.2.2.1 Nat Nat (fun l => l.length)
     (.error .typeError) 0 [⟨0, 1, none, true⟩] (by decide) (by decide),
   reduce_aggregate_fail_on_empty_or_flat.2.2.2.1 Nat (fun a b => b.map (a + ·))
     none none 0,
   reduce_aggregate_fail_on_empty_or_flat.2.2.2.2 Nat (fun a b => b.map (a + ·))
     none none 0 [⟨0, some 1, none, true⟩, ⟨1, some 2, none, true⟩] (by decide)⟩

/-- C6: `get` drains the sequence; with two or more remaining nodes it fails
with the not-collapsed error, with exactly one node it returns that node's
value. -/
theorem get_arity_check {V : Type} :
    (∀ (ns : List (Node V)) (k : Nat), 2 ≤ ns.length →
        getOp (.ok (ns, k)) = .error .notCollapsed) ∧
    (∀ (n : Node V) (k : Nat), getOp (.ok ([n], k)) = .ok n.value) := by
  constructor
  · intro ns k h
    simp only [getOp]
    rw [if_pos (by omega)]
  · intro n k
    simp [getOp]

/-- Witness for `get_arity_check`: a two-node drain fails, a one-node drain
returns the value. -/
theorem get_arity_check_witness :
    getOp (.ok ([⟨0, (1 : Nat), none, true⟩, ⟨1, 2, none, true⟩], 2)) =
      .error .notCollapsed ∧
    getOp (.ok ([⟨0, (7 : Nat), none, true⟩], 1)) = .ok 7 :=
  ⟨get_arity_check.1 [⟨0, 1, none, true⟩, ⟨1, 2, none, true⟩] 2 (by decide),
   get_arity_check.2 ⟨0, 7, none, true⟩ 1⟩

/-- C8: `map` with the identity function is strictly 1:1 and
order-preserving: the output sequence has the same length as the upstream
sequence, with identical values and identical parent identities, in the
same order. -/
theorem map_identity_law {V : Type} (fresh : Nat) (ls : List (Node V)) :
    ((mapOp (fun v => v) fresh ls).1.map Node.value = ls.map Node.value) ∧
    ((mapOp (fun v => v) fresh ls).1.map Node.parent = ls.map Node.parent) ∧
    (mapOp (fun v => v) fresh ls).1.length = ls.length := by
  induction ls generalizing fresh with
  | nil => simp [mapOp]
  | cons l ls ih =>
    have h := ih (fresh + 1)
    simp only [mapOp, List.map_cons, List.length_cons]
    exact ⟨by rw [h.1], by rw [h.2.1], by rw [h.2.2]⟩

/-- C9: whenever the running accumulator of `_aggregate_op` is Python `None`
at the moment a leaf is consumed, the leaf's value replaces the accumulator
instead of being combined through `func` (`pyFoldStep func none v = v`),
while a non-`None` accumulator is combined through `func`; a whole group is
therefore the `pyFoldStep` fold from the `none` seed that an omitted — or,
identically, an explicitly-`None` — `init` produces (both are the very same
`init = none` argument of `aggregateOp`, as in the source, where the
parameter defaults to `None`), so a `None` arising mid-fold from `func`
silently restarts the fold at the next value. -/
theorem aggregate_none_replaces_accumulator {β : Type}
    (func : β → Option β → Option β) :
    (∀ v : Option β, pyFoldStep func none v = v) ∧
    (∀ (a : β) (v : Option β), pyFoldStep func (some a) v = func a v) ∧
    (∀ (r : Ref) (vs : List (Option β)) (fresh : Nat), vs ≠ [] →
        aggregateOp func none none fresh (flattenGroups [(r, vs)]) =
          .ok ([⟨fresh, vs.foldl (pyFoldStep func) none, r.parent, true⟩], fresh + 1)) := by
  refine ⟨fun _ => rfl, fun _ _ => rfl, fun r vs fresh hv => ?_⟩
  have h := aggregateOp_runs func none none [(r, vs)] fresh
    (by simpa using hv) (by simp) trivial
  simpa [aggRunsOut, effInit] using h

/-- Witness for `aggregate_none_replaces_accumulator`: over the group
`[1, 2, 3]` with a `func` that returns `None` when the accumulator is `1`,
the fold produces `1`, then `None` (restart), then `3`: the mid-fold `None`
silently restarts and the group aggregates to `3`. -/
theorem aggregate_none_replaces_accumulator_witness :
    aggregateOp (fun a b => if a = 1 then none else b.map (a + ·)) none none 4
        (flattenGroups [(.root 0, [some 1, some 2, some 3])]) =
      .ok ([⟨4, some 3, none, true⟩], 5) :=
  ((aggregate_none_replaces_accumulator
      (fun a b => if a = 1 then none else b.map (a + ·))).2.2
    (.root 0) [some 1, some 2, some 3] 4 (by decide)).trans (by rfl)

/-- Lift of a plain binary function to the `Option`-valued value domain:
`_aggregate_op` calls `func(cur_aggregate, leaf.value)` with a non-`None`
accumulator; for the non-`None` leaf values considered here the lift is
exact, and a `None` leaf value (which would raise inside an ordinary Python
`func`) is modelled as `none`. -/
def pyBin {α : Type} (g : α → α → α) (a : α) (b : Option α) : Option α :=
  b.map (g a)

/-- Modelled from the spec's words for the reduce side of the
reduce/aggregate equivalence: "the left-fold of `func` that seeds from the
group's first value" (`lambda values: functools.reduce(func, values)`).
`None` holes, impossible under the equivalence theorem's hypotheses,
propagate as `none`. -/
def foldFirst {α : Type} (g : α → α → α) : List (Option α) → Option α
  | [] => none
  | v :: vs => vs.foldl (fun acc b => acc.bind (fun a => b.map (g a))) v

/-- Groups of plain (non-`None`) values, injected into the `Option`-valued
node domain. -/
def someGroups {α : Type} (gs : List (Ref × List α)) : List (Ref × List (Option α)) :=
  gs.map (fun g => (g.1, g.2.map some))

theorem pyFold_some {α : Type} (g : α → α → α) :
    ∀ (vs : List α) (a : α),
      (vs.map some).foldl (pyFoldStep (pyBin g)) (some a) = some (vs.foldl g a) := by
  intro vs
  induction vs with
  | nil => intro a; rfl
  | cons v vs ih =>
    intro a
    simp only [List.map_cons, List.foldl_cons]
    exact ih (g a v)

theorem bindFold_some {α : Type} (g : α → α → α) :
    ∀ (vs : List α) (a : α),
      (vs.map some).foldl (fun acc b => acc.bind (fun x => b.map (g x))) (some a) =
        some (vs.foldl g a) := by
  intro vs
  induction vs with
  | nil => intro a; rfl
  | cons v vs ih =>
    intro a
    simp only [List.map_cons, List.foldl_cons]
    exact ih (g a v)

/-- On one non-empty group of non-`None` values, the no-init aggregate fold
and the seed-from-first reduce fold agree. -/
theorem group_value_eq {α : Type} (g : α → α → α) (vs : List α) (hv : vs ≠ []) :
    (vs.map some).foldl (pyFoldStep (pyBin g)) none = foldFirst g (vs.map some) := by
  cases vs with
  | nil => exact absurd rfl hv
  | cons v vs =>
    simp only [List.map_cons, List.foldl_cons, foldFirst]
    rw [show pyFoldStep (pyBin g) none (some v) = some v from rfl, pyFold_some,
      bindFold_some]

theorem someGroups_cons {α : Type} (r : Ref) (vs : List α) (gs : List (Ref × List α)) :
    someGroups ((r, vs) :: gs) = (r, vs.map some) :: someGroups gs :=
  rfl

theorem runsOut_eq {α : Type} (g : α → α → α) :
    ∀ (gs : List (Ref × List α)) (fresh k : Nat),
      (∀ p ∈ gs, p.2 ≠ []) →
      aggRunsOut (pyBin g) (effInit none none) fresh k (someGroups gs) =
        reduceRunsOut (foldFirst g) fresh (someGroups gs) := by
  intro gs
  induction gs with
  | nil => intros; rfl
  | cons p gs ih =>
    intro fresh k hne
    obtain ⟨r, vs⟩ := p
    rw [someGroups_cons,
      show aggRunsOut (pyBin g) (effInit none none) fresh k
          ((r, vs.map some) :: someGroups gs) =
        ⟨fresh, (vs.map some).foldl (pyFoldStep (pyBin g)) (effInit none none k),
            r.parent, true⟩ ::
          aggRunsOut (pyBin g) (effInit none none) (fresh + 1) (k + 1) (someGroups gs)
        from rfl,
      show reduceRunsOut (foldFirst g) fresh ((r, vs.map some) :: someGroups gs) =
        ⟨fresh, foldFirst g (vs.map some), r.parent, true⟩ ::
          reduceRunsOut (foldFirst g) (fresh + 1) (someGroups gs) from rfl,
      show effInit (β := α) none none k = none from rfl,
      group_value_eq g vs (hne (r, vs) (by simp)),
      ih (fresh + 1) (k + 1) (fun p hp => hne p (by simp [hp]))]

theorem adjDiff_someGroups {α : Type} :
    ∀ (gs : List (Ref × List α)), adjDiff gs → adjDiff (someGroups gs) := by
  intro gs
  induction gs with
  | nil => intro; trivial
  | cons p gs ih =>
    obtain ⟨r, vs⟩ := p
    cases gs with
    | nil => intro; trivial
    | cons q qs =>
      obtain ⟨s, ws⟩ := q
      intro h
      exact ⟨h.1, ih h.2⟩

/-- C7: for a binary `func` over non-`None` values and an upstream sequence
of non-empty groups, `aggregate(func)` with neither `init` nor
`init_factory` produces, group for group, exactly the drained output of
`reduce` applied with the left fold of `func` seeded from the group's first
value: same values, same grandparent parents, same order.  The groups being
non-empty, `reduce`'s behaviour on `None` collected values (`funcNone`) is
never consulted, so the equality holds for every such behaviour. -/
theorem aggregate_reduce_equivalence {α : Type} (g : α → α → α)
    (funcNone : Except PyError (Option α)) (gs : List (Ref × List α)) (fresh : Nat)
    (hne : ∀ p ∈ gs, p.2 ≠ []) (hgs : gs ≠ []) (hadj : adjDiff gs) :
    aggregateOp (pyBin g) none none fresh (flattenGroups (someGroups gs)) =
      reduceOp (foldFirst g) funcNone fresh (flattenGroups (someGroups gs)) := by
  have hne' : ∀ p ∈ someGroups gs, p.2 ≠ [] := by
    intro p hp
    simp only [someGroups, List.mem_map] at hp
    obtain ⟨q, hq, rfl⟩ := hp
    simpa using hne q hq
  have hgs' : someGroups gs ≠ [] := by
    cases gs with
    | nil => exact absurd rfl hgs
    | cons q qs => simp [someGroups]
  have hadj' : adjDiff (someGroups gs) := adjDiff_someGroups gs hadj
  rw [aggregateOp_runs (pyBin g) none none (someGroups gs) fresh hne' hgs' hadj',
    reduceOp_runs (foldFirst g) funcNone (someGroups gs) fresh hne' hgs' hadj',
    runsOut_eq g gs fresh 0 hne]

/-- Witness for `aggregate_reduce_equivalence`: groups `[1, 2, 3]` and `[4]`
aggregated with addition. -/
theorem aggregate_reduce_equivalence_witness :
    aggregateOp (pyBin (fun a b : Nat => a + b)) none none 9
        (flattenGroups (someGroups [(.root 0, [1, 2, 3]), (.root 1, [4])])) =
      reduceOp (foldFirst (fun a b : Nat => a + b)) (.error .typeError) 9
        (flattenGroups (someGroups [(.root 0, [1, 2, 3]), (.root 1, [4])])) :=
  aggregate_reduce_equivalence (fun a b : Nat => a + b) (.error .typeError)
    [(.root 0, [1, 2, 3]), (.root 1, [4])] 9
    (by decide) (by decide) (by exact ⟨by decide, trivial⟩)

/-- C2 counterexample: on the input string with its trailing newline the
pipeline yields a trailing empty token — `"a b\nc d\n".split('\n')` is
`['a b', 'c d', '']` — so the drained terminal value is
`"a_b -> c_d -> "`, not `"a_b -> c_d"` as claimed. -/
theorem scenario_trailing_newline_counterexample :
    scenarioPipeline "a b\nc d\n" = .ok (some "a_b -> c_d -> ") ∧
    (some "a_b -> c_d -> " : Option String) ≠ some "a_b -> c_d" :=
  ⟨rfl, by decide⟩

/-- C2 (amended): driving
`split('\n').split(' ').aggregate(join '_').aggregate(join ' -> ')` to its
single terminal value via `get` on the input `"a b\nc d\n"` yields
`"a_b -> c_d -> "` (the trailing newline contributes an empty token); on
`"a b\nc d"`, without the trailing newline, it yields `"a_b -> c_d"`. -/
theorem scenario_trailing_newline_result :
    scenarioPipeline "a b\nc d\n" = .ok (some "a_b -> c_d -> ") ∧
    scenarioPipeline "a b\nc d" = .ok (some "a_b -> c_d") :=
  ⟨rfl, rfl⟩

/-- C3 at the failing input: `from_file` on a two-line file consumes the
entire (non-empty) file before returning — the handle's unread remainder is
already empty and both lines sit in the constructed initial sequence —
although no terminal consumer has been driven. -/
theorem fromFile_reads_file_eagerly :
    (fromFileModel ["a b\n", "c d\n"]).2 = [] ∧
    (fromFileModel ["a b\n", "c d\n"]).1.1.map Node.value =
      [some "a b\n", some "c d\n"] ∧
    ["a b\n", "c d\n"] ≠ ([] : List String) :=
  ⟨rfl, rfl, by decide⟩

/-- Model of `Node.__getitem__`: raises the leaf-iteration error
(`"Can't iterate over a leaf."`) on a leaf.  The non-leaf branch returns
`self.value[item]`, which cannot be typed over an opaque value; it is
unreachable because `is_leaf` is `True` for every node the pipeline creates
(`all_nodes_are_leaves`). -/
def Node.getitem {V : Type} (n : Node V) (_item : Nat) : Except PyError Unit :=
  if n.isLeaf then .error .leafIteration else .error .unmodelledNonLeaf

/-- Model of `Node.leaves`: a leaf yields exactly itself; the non-leaf branch
recurses into children — unreachable, as for `Node.getitem`. -/
def Node.leavesList {V : Type} (n : Node V) : Except PyError (List (Node V)) :=
  if n.isLeaf then .ok [n] else .error .unmodelledNonLeaf

/-- Model of `Node.lowest_nodes`: raises the single-node error
(`"Tree only consists of one node."`) on a leaf; the non-leaf branch
recurses — unreachable, as for `Node.getitem`. -/
def Node.lowestNodes {V : Type} (n : Node V) : Except PyError (List (Node V)) :=
  if n.isLeaf then .error .singleNode else .error .unmodelledNonLeaf

theorem except_map_ok {γ δ : Type} {f : γ → δ} {x : Except PyError γ} {out : δ}
    (h : x.map f = .ok out) : ∃ y, x = .ok y ∧ out = f y := by
  cases x with
  | error e => simp [Except.map] at h
  | ok y => exact ⟨y, rfl, by simpa [Except.map] using h.symm⟩

theorem initNodesGo_isLeaf {V : Type} :
    ∀ (inputs : List V) (fresh : Nat) (n : Node V),
      n ∈ initNodesGo fresh inputs → n.isLeaf = true := by
  intro inputs
  induction inputs with
  | nil => intro fresh n hn; simp [initNodesGo] at hn
  | cons v vs ih =>
    intro fresh n hn
    simp only [initNodesGo, List.mem_cons] at hn
    rcases hn with rfl | hn
    · rfl
    · exact ih (fresh + 1) n hn

theorem mkChildren_isLeaf {W : Type} (pref : Option Ref) :
    ∀ (ws : List W) (fresh : Nat) (n : Node W),
      n ∈ (mkChildren pref fresh ws).1 → n.isLeaf = true := by
  intro ws
  induction ws with
  | nil => intro fresh n hn; simp [mkChildren] at hn
  | cons w ws ih =>
    intro fresh n hn
    simp only [mkChildren, List.mem_cons] at hn
    rcases hn with rfl | hn
    · rfl
    · exact ih (fresh + 1) n hn

theorem expandOp_isLeaf {V W : Type} (f : V → List W) :
    ∀ (ls : List (Node V)) (fresh : Nat) (n : Node W),
      n ∈ (expandOp f fresh ls).1 → n.isLeaf = true := by
  intro ls
  induction ls with
  | nil => intro fresh n hn; simp [expandOp] at hn
  | cons l ls ih =>
    intro fresh n hn
    simp only [expandOp, List.mem_append] at hn
    rcases hn with hn | hn
    · exact mkChildren_isLeaf (some l.ref) (f l.value) fresh n hn
    · exact ih (mkChildren (some l.ref) fresh (f l.value)).2 n hn

theorem mapOp_isLeaf {V W : Type} (f : V → W) :
    ∀ (ls : List (Node V)) (fresh : Nat) (n : Node W),
      n ∈ (mapOp f fresh ls).1 → n.isLeaf = true := by
  intro ls
  induction ls with
  | nil => intro fresh n hn; simp [mapOp] at hn
  | cons l ls ih =>
    intro fresh n hn
    simp only [mapOp, List.mem_cons] at hn
    rcases hn with rfl | hn
    · rfl
    · exact ih (fresh + 1) n hn

theorem reduceGo_isLeaf {V W : Type} (func : List V → W)
    (funcNone : Except PyError W) :
    ∀ (ls : List (Node V)) (st : Option (Option Ref × List V)) (fresh : Nat)
      (out : List (Node W) × Nat),
      reduceGo func funcNone fresh ls st = .ok out → ∀ n ∈ out.1, n.isLeaf = true := by
  intro ls
  induction ls with
  | nil =>
    intro st fresh out h n hn
    match st with
    | none =>
      simp only [reduceGo] at h
      cases funcNone with
      | error e => simp at h
      | ok w => simp at h
    | some (none, cs) => simp [reduceGo] at h
    | some (some r, cs) =>
      simp only [reduceGo, Except.ok.injEq] at h
      rw [← h] at hn
      simp only [List.mem_singleton] at hn
      rw [hn]
  | cons leaf rest ih =>
    intro st fresh out h n hn
    match st with
    | none =>
      simp only [reduceGo] at h
      cases hp : leaf.parent with
      | none => rw [hp] at h; simp at h
      | some q =>
        rw [hp] at h
        exact ih _ _ _ h n hn
    | some (p, cs) =>
      simp only [reduceGo] at h
      by_cases hb : refIs leaf.parent p = true
      · rw [if_pos hb] at h
        exact ih _ _ _ h n hn
      · rw [if_neg hb] at h
        cases p with
        | none => exact ih _ _ _ h n hn
        | some r =>
          obtain ⟨y, hy, rfl⟩ := except_map_ok h
          simp only [List.mem_cons] at hn
          rcases hn with rfl | hn
          · rfl
          · exact ih _ _ _ hy n hn

theorem aggregateGo_isLeaf {β : Type} (func : β → Option β → Option β)
    (seed : Nat → Option β) :
    ∀ (ls : List (Node (Option β))) (curP : Option Ref) (agg : Option β)
      (fresh k : Nat) (out : List (Node (Option β)) × Nat),
      aggregateGo func seed fresh k ls curP agg = .ok out →
      ∀ n ∈ out.1, n.isLeaf = true := by
  intro ls
  induction ls with
  | nil =>
    intro curP agg fresh k out h n hn
    match curP with
    | none => simp [aggregateGo] at h
    | some r =>
      simp only [aggregateGo, Except.ok.injEq] at h
      rw [← h] at hn
      simp only [List.mem_singleton] at hn
      rw [hn]
  | cons leaf rest ih =>
    intro curP agg fresh k out h n hn
    simp only [aggregateGo] at h
    by_cases hb : refIs leaf.parent curP = true
    · rw [if_pos hb] at h
      exact ih _ _ _ _ _ h n hn
    · rw [if_neg hb] at h
      cases curP with
      | none => exact ih _ _ _ _ _ h n hn
      | some r =>
        obtain ⟨y, hy, rfl⟩ := except_map_ok h
        simp only [List.mem_cons] at hn
        rcases hn with rfl | hn
        · rfl
        · exact ih _ _ _ _ _ hy n hn

/-- C10: every node constructed anywhere in the pipeline — by the
`TreeParser` constructor, `expand`, `map`, `reduce`, or `aggregate` — has
`is_leaf = True`, and no operation ever sets it to `False`; consequently
indexing any such node raises the leaf-iteration error, `leaves()` yields
exactly the node itself, and `lowest_nodes()` raises the single-node
error. -/
theorem all_nodes_are_leaves :
    (∀ (V : Type) (inputs : List V) (n : Node V), n ∈ (initNodes inputs).1 →
        n.isLeaf = true) ∧
    (∀ (V W : Type) (f : V → List W) (fresh : Nat) (ls : List (Node V)) (n : Node W),
        n ∈ (expandOp f fresh ls).1 → n.isLeaf = true) ∧
    (∀ (V W : Type) (f : V → W) (fresh : Nat) (ls : List (Node V)) (n : Node W),
        n ∈ (mapOp f fresh ls).1 → n.isLeaf = true) ∧
    (∀ (V W : Type) (func : List V → W) (funcNone : Except PyError W) (fresh : Nat)
        (ls : List (Node V)) (out : List (Node W) × Nat),
        reduceOp func funcNone fresh ls = .ok out →
        ∀ n ∈ out.1, n.isLeaf = true) ∧
    (∀ (β : Type) (func : β → Option β → Option β) (init : Option β)
        (factory : Option (Nat → Option β)) (fresh : Nat)
        (ls : List (Node (Option β))) (out : List (Node (Option β)) × Nat),
        aggregateOp func init factory fresh ls = .ok out →
        ∀ n ∈ out.1, n.isLeaf = true) ∧
    (∀ (V : Type) (n : Node V) (item : Nat), n.isLeaf = true →
        n.getitem item = .error .leafIteration) ∧
    (∀ (V : Type) (n : Node V), n.isLeaf = true → n.leavesList = .ok [n]) ∧
    (∀ (V : Type) (n : Node V), n.isLeaf = true →
        n.lowestNodes = .error .singleNode) := by
  refine ⟨fun V inputs n hn => initNodesGo_isLeaf inputs 0 n hn,
    fun V W f fresh ls n hn => expandOp_isLeaf f ls fresh n hn,
    fun V W f fresh ls n hn => mapOp_isLeaf f ls fresh n hn,
    fun V W func funcNone fresh ls out h =>
      reduceGo_isLeaf func funcNone ls none fresh out h,
    fun β func init factory fresh ls out h =>
      aggregateGo_isLeaf func (effInit init factory) ls none none fresh 0 out h,
    fun V n item h => ?_, fun V n h => ?_, fun V n h => ?_⟩
  · simp [Node.getitem, h]
  · simp [Node.leavesList, h]
  · simp [Node.lowestNodes, h]

/-- Witness for `all_nodes_are_leaves`: a concrete node from each
constructor — the `TreeParser` constructor, `expand`, `map`, `reduce`, and
`aggregate` — and the three method behaviours at concrete leaves. -/
theorem all_nodes_are_leaves_witness :
    (Node.mk 0 (5 : Nat) none true).isLeaf = true ∧
    (Node.mk 1 (5 : Nat) (some (.root 0)) true).isLeaf = true ∧
    (Node.mk 4 (6 : Nat) none true).isLeaf = true ∧
    (Node.mk 0 (1 : Nat) none true).isLeaf = true ∧
    (Node.mk 0 (some 1 : Option Nat) none true).isLeaf = true ∧
    (Node.mk 1 (7 : Nat) none true).getitem 0 = .error .leafIteration ∧
    (Node.mk 2 (9 : Nat) none true).leavesList = .ok [⟨2, 9, none, true⟩] ∧
    (Node.mk 3 (11 : Nat) none true).lowestNodes = .error .singleNode :=
  ⟨all_nodes_are_leaves.1 Nat [5] ⟨0, 5, none, true⟩ (by decide),
   all_nodes_are_leaves.2.1 Nat Nat (fun v => [v]) 1 [⟨0, 5, none, true⟩]
     ⟨1, 5, some (.root 0), true⟩ (by decide),
   all_nodes_are_leaves.2.2.1 Nat Nat (fun v => v + 1) 4 [⟨0, 5, none, true⟩]
     ⟨4, 6, none, true⟩ (by decide),
   all_nodes_are_leaves.2.2.2.1 Nat Nat (fun l => l.length) (.error .typeError) 0
     (flattenGroups [(.root 5, [1])]) ([⟨0, 1, none, true⟩], 1) rfl
     ⟨0, 1, none, true⟩ (by decide),
   all_nodes_are_leaves.2.2.2.2.1 Nat (fun a b => b.map (a + ·)) none none 0
     (flattenGroups [(.root 7, [some 1])]) ([⟨0, some 1, none, true⟩], 1) rfl
     ⟨0, some 1, none, true⟩ (by decide),
   all_nodes_are_leaves.2.2.2.2.2.1 Nat ⟨1, 7, none, true⟩ 0 rfl,
   all_nodes_are_leaves.2.2.2.2.2.2.1 Nat ⟨2, 9, none, true⟩ rfl,
   all_nodes_are_leaves.2.2.2.2.2.2.2 Nat ⟨3, 11, none, true⟩ rfl⟩
